import Mathlib

/-
Verification of the carpool-tracker state store (caronas-app).

The development shallowly embeds the store, archive and merge logic of
`src/services/dataUtils.ts` (shipped here as `src/unnamed/part_000`) and
`src/App.tsx` into Lean:

* untrusted payloads handled by `sanitizeData` are modelled by the `JVal`
  type of JavaScript values (numbers as integers; property assignment on a
  primitive is an `Except.error`, matching the TypeError that strict-mode
  ES modules raise);
* the persisted document `AppData` is modelled as a structure with an
  association list for the archive slots (the JS object's extra keys);
* `JSON.parse` is an abstract parameter `parse : String → Option JVal`
  (`none` models a parse exception), the `localeCompare`-based comparator
  is an abstract parameter `cmp`, and the time-dependent participant-id
  generator and archive-name suffix are abstract parameters `genId` and
  `suffix`;
* the 1000 ms debounce of `saveAppData` is modelled by `remoteWrites`,
  which maps a timestamped list of save calls to the list of payloads
  whose `setTimeout` timer is not cancelled by a later call.
-/

namespace CaronasApp

/-- Sentinel week name `DEFAULT_WEEK_NAME` from `types.ts`. -/
def DEFAULT_WEEK_NAME : String := "Semana Atual"

/-! ## JavaScript values and `sanitizeData` -/

/-- JavaScript values as seen by `sanitizeData`.  Arrays carry both their
elements and any named properties later assigned to them; numeric payloads
are modelled as integers. -/
inductive JVal where
  | null : JVal
  | bool : Bool → JVal
  | num : Int → JVal
  | str : String → JVal
  | arr : List JVal → List (String × JVal) → JVal
  | obj : List (String × JVal) → JVal

/-- Property lookup in a JS object's ordered property list. -/
def getProp : List (String × JVal) → String → Option JVal
  | [], _ => none
  | (k, v) :: rest, key => if k = key then some v else getProp rest key

/-- Property assignment: replace the first binding of the key, else append. -/
def setProp : List (String × JVal) → String → JVal → List (String × JVal)
  | [], key, v => [(key, v)]
  | (k, w) :: rest, key, v =>
      if k = key then (key, v) :: rest else (k, w) :: setProp rest key v

/-- JavaScript truthiness. -/
def jTruthy : JVal → Bool
  | JVal.null => false
  | JVal.bool b => b
  | JVal.num n => decide (n ≠ 0)
  | JVal.str s => decide (s ≠ "")
  | JVal.arr _ _ => true
  | JVal.obj _ => true

/-- Reading a named property (`undefined` is `none`).  Only objects and
arrays have own named properties. -/
def jGetField : JVal → String → Option JVal
  | JVal.obj props, k => getProp props k
  | JVal.arr _ props, k => getProp props k
  | _, _ => none

/-- Truthiness test `!data.k`: the field is missing or falsy. -/
def jFieldFalsy (d : JVal) (k : String) : Bool :=
  match jGetField d k with
  | none => true
  | some v => !jTruthy v

/-- Property assignment `data.k = v`.  On a primitive this throws a
TypeError in strict mode (ES modules are strict), modelled as an error. -/
def jSetField : JVal → String → JVal → Except Unit JVal
  | JVal.obj props, k, v => Except.ok (JVal.obj (setProp props k v))
  | JVal.arr elems props, k, v => Except.ok (JVal.arr elems (setProp props k v))
  | _, _, _ => Except.error ()

/-- The empty-document default `{ active_trips: [], currentWeekName: DEFAULT_WEEK_NAME }`. -/
def defaultDoc : JVal :=
  JVal.obj [("active_trips", JVal.arr [] []),
            ("currentWeekName", JVal.str DEFAULT_WEEK_NAME)]

/-- First defaulting step of `sanitizeData` (data-utils line 21):
`if (!data.active_trips) data.active_trips = []`. -/
def sanitizeStep1 (d : JVal) : Except Unit JVal :=
  if jFieldFalsy d "active_trips"
  then jSetField d "active_trips" (JVal.arr [] [])
  else Except.ok d

/-- Second defaulting step of `sanitizeData` (data-utils line 22):
`if (!data.currentWeekName) data.currentWeekName = DEFAULT_WEEK_NAME`. -/
def sanitizeStep2 (d : JVal) : Except Unit JVal :=
  if jFieldFalsy d "currentWeekName"
  then jSetField d "currentWeekName" (JVal.str DEFAULT_WEEK_NAME)
  else Except.ok d

/-- The two sequential field-defaulting statements of `sanitizeData`
(data-utils lines 21-23), each of which can throw on a primitive. -/
def sanitizeCore (d : JVal) : Except Unit JVal :=
  match sanitizeStep1 d with
  | Except.error e => Except.error e
  | Except.ok d1 => sanitizeStep2 d1

/-- Embedding of `sanitizeData` (data-utils lines 8-24).  `parse` models
`JSON.parse`, with `none` standing for a parse exception, which the source
catches by returning the default document. -/
def sanitizeData (parse : String → Option JVal) (data : JVal) : Except Unit JVal :=
  if jTruthy data then
    match data with
    | JVal.str s =>
        match parse s with
        | none => Except.ok defaultDoc
        | some v => sanitizeCore v
    | _ => sanitizeCore data
  else
    Except.ok defaultDoc

/-! ## The typed document model -/

/-- One rider's payment record for one trip (`types.ts`). -/
structure Participant where
  id : String
  name : String
  paid : Bool
deriving DecidableEq

/-- The closed `'Ida' | 'Volta'` direction enum. -/
inductive TripType where
  | Ida : TripType
  | Volta : TripType
deriving DecidableEq

/-- One directional leg on one calendar day (`types.ts`). -/
structure Trip where
  day : String
  time : Option String
  type : TripType
  participants : List Participant
deriving DecidableEq

/-- The persisted document: `active_trips`, `currentWeekName`, and the
archive slots, i.e. the JS object's remaining keys, kept as an ordered
association list from week name to frozen trip list. -/
structure AppData where
  active_trips : List Trip
  currentWeekName : String
  archives : List (String × List Trip)
deriving DecidableEq

/-- Archive-slot lookup `data[name]` (`none` = key absent). -/
def lookupSlot : List (String × List Trip) → String → Option (List Trip)
  | [], _ => none
  | (k, v) :: rest, key => if k = key then some v else lookupSlot rest key

/-- Archive-slot assignment `data[name] = trips`: replace the binding if
the key is present, else append it. -/
def setSlot : List (String × List Trip) → String → List Trip → List (String × List Trip)
  | [], key, v => [(key, v)]
  | (k, w) :: rest, key, v =>
      if k = key then (key, v) :: rest else (k, w) :: setSlot rest key v

/-! ## Sorting and name-set helpers -/

/-- Insert into a sorted list, used to model the in-place `.sort(...)`
calls; the comparator `le` abstracts `localeCompare`-based ordering. -/
def insertSorted (le : α → α → Bool) (a : α) : List α → List α
  | [] => [a]
  | b :: bs => if le a b then a :: b :: bs else b :: insertSorted le a bs

/-- Insertion sort by an abstract comparator. -/
def sortBy (le : α → α → Bool) (l : List α) : List α :=
  l.foldr (insertSorted le) []

/-- Deduplication keeping first occurrences, the behavior of
`new Set([...])` iteration order. -/
def dedupFirst : List String → List String
  | [] => []
  | x :: xs => x :: (dedupFirst xs).filter (fun y => y ≠ x)

/-! ## Trip merge resolver (`handleAddTrip`, App.tsx lines 236-262) -/

/-- The `existingTrip.participants.find(p => p.name === name)` lookup. -/
def findByName : List Participant → String → Option Participant
  | [], _ => none
  | p :: ps, n => if p.name = n then some p else findByName ps n

/-- Resolution of one target name against an existing trip: reuse the
first participant with that exact name, else create a fresh unpaid one
with a generated id.  `genId` abstracts `generateParticipantId`, which
depends on the wall clock. -/
def resolveName (genId : String → String) (t : Trip) (n : String) : Participant :=
  match findByName t.participants n with
  | some p => p
  | none => { id := genId n, name := n, paid := false }

/-- Merged participant list for an existing trip: map each target name
through `resolveName`, then sort by name (the `localeCompare` sort is the
abstract comparator `cmp`). -/
def mergeParticipants (genId : String → String) (cmp : String → String → Bool)
    (t : Trip) (targetNames : List String) : List Participant :=
  sortBy (fun a b => cmp a.name b.name) (targetNames.map (resolveName genId t))

/-- Fresh participant list for a brand-new trip (all unpaid), sorted. -/
def freshParticipants (genId : String → String) (cmp : String → String → Bool)
    (targetNames : List String) : List Participant :=
  sortBy (fun a b => cmp a.name b.name)
    (targetNames.map (fun n => { id := genId n, name := n, paid := false }))

/-- The `findIndex(t => t.day === formattedDate && t.type === type)`
lookup, returning the first trip with the given day and direction. -/
def findTrip : List Trip → String → TripType → Option Trip
  | [], _, _ => none
  | t :: ts, fd, ty =>
      if t.day = fd ∧ t.type = ty then some t else findTrip ts fd ty

/-- One iteration of the `selectedTypes.forEach` body: replace the first
trip matching `(formattedDate, ty)` with its merged version, or push a new
trip at the end of the list. -/
def mergeTypeStep (genId : String → String) (cmp : String → String → Bool)
    (fd : String) (ty : TripType) (targetNames : List String) :
    List Trip → List Trip
  | [] => [{ day := fd, time := none, type := ty,
             participants := freshParticipants genId cmp targetNames }]
  | t :: ts =>
      if t.day = fd ∧ t.type = ty then
        { t with participants := mergeParticipants genId cmp t targetNames } :: ts
      else
        t :: mergeTypeStep genId cmp fd ty targetNames ts

/-- Split of a character list at a separator, the semantics of the JS
`String.split` with a one-character separator. -/
def splitOnChar (sep : Char) : List Char → List (List Char)
  | [] => [[]]
  | c :: cs =>
      let r := splitOnChar sep cs
      if c = sep then [] :: r
      else
        match r with
        | [] => [[c]]
        | g :: gs => (c :: g) :: gs

/-- JS `s.split(sep)` for a one-character separator. -/
def jsSplit (sep : Char) (s : String) : List String :=
  (splitOnChar sep s.data).map (fun cs => String.mk cs)

/-- JS `s.trim()`: strip whitespace from both ends. -/
def jsTrim (s : String) : String :=
  String.mk ((((s.data.dropWhile Char.isWhitespace).reverse).dropWhile
    Char.isWhitespace).reverse)

/-- Target name set of an add-trip request: typed lines split on newlines,
trimmed and blanks dropped, unioned with the checkbox selections,
deduplicated in insertion order and sorted. -/
def computeTargetNames (cmp : String → String → Bool)
    (selectedExistingNames : List String) (newParticipantInput : String) : List String :=
  let manualNames := ((jsSplit '\n' newParticipantInput).map jsTrim).filter
    (fun s => s ≠ "")
  sortBy cmp (dedupFirst (selectedExistingNames ++ manualNames))

/-! ## Calendar arithmetic (`generateWeekName`, `formatDate`, weekday) -/

/-- A civil calendar date as produced by `new Date(year, month - 1, day)`,
with `month` in 1..12. -/
structure CalDate where
  year : Nat
  month : Nat
  day : Nat
deriving DecidableEq

/-- Gregorian leap-year rule, as implemented by the JS `Date` class. -/
def isLeapYear (y : Nat) : Bool :=
  y % 4 == 0 && (y % 100 != 0 || y % 400 == 0)

/-- Length of a month of the Gregorian calendar. -/
def daysInMonth (y m : Nat) : Nat :=
  if m = 2 then (if isLeapYear y then 29 else 28)
  else if m = 4 ∨ m = 6 ∨ m = 9 ∨ m = 11 then 30
  else 31

/-- The date `n` days after `dt`, as computed by
`endDate.setDate(startDate.getDate() + n)` for the small `n = 4` used by
the source: overflow past the end of the month rolls into the next month
(and past December into the next year). -/
def addDaysNorm (dt : CalDate) (n : Nat) : CalDate :=
  let d := dt.day + n
  if d ≤ daysInMonth dt.year dt.month then ⟨dt.year, dt.month, d⟩
  else
    let d2 := d - daysInMonth dt.year dt.month
    if dt.month = 12 then ⟨dt.year + 1, 1, d2⟩ else ⟨dt.year, dt.month + 1, d2⟩

/-- The calendar successor of a date. -/
def nextDay (dt : CalDate) : CalDate :=
  if dt.day < daysInMonth dt.year dt.month then ⟨dt.year, dt.month, dt.day + 1⟩
  else if dt.month < 12 then ⟨dt.year, dt.month + 1, 1⟩
  else ⟨dt.year + 1, 1, 1⟩

/-- A well-formed civil date. -/
def ValidDate (dt : CalDate) : Prop :=
  1 ≤ dt.month ∧ dt.month ≤ 12 ∧ 1 ≤ dt.day ∧ dt.day ≤ daysInMonth dt.year dt.month

instance (dt : CalDate) : Decidable (ValidDate dt) := by
  unfold ValidDate; infer_instance

/-- Two-digit zero padding, `String(n).padStart(2, '0')`. -/
def pad2 (n : Nat) : String :=
  if n < 10 then "0" ++ toString n else toString n

/-- Embedding of `formatDate` (data-utils lines 124-129): `DD/MM/YYYY`. -/
def formatDate (dt : CalDate) : String :=
  pad2 dt.day ++ "/" ++ pad2 dt.month ++ "/" ++ toString dt.year

/-- Decimal reading of a nonempty digit string, the effect of `parseInt`
on the date-picker's zero-padded pieces; anything else yields `none`. -/
def parseDigits (cs : List Char) : Option Nat :=
  if cs ≠ [] ∧ cs.all Char.isDigit then
    some (cs.foldl (fun a c => a * 10 + (c.toNat - 48)) 0)
  else none

/-- Parse of the date-picker's `YYYY-MM-DD` value, the digit pieces read
with `parseInt`; values outside that shape fall to the failure branch. -/
def parseISODate (s : String) : Option CalDate :=
  match (splitOnChar '-' s.data) with
  | [ys, ms, ds] =>
      match parseDigits ys, parseDigits ms, parseDigits ds with
      | some y, some m, some d => some ⟨y, m, d⟩
      | _, _, _ => none
  | _ => none

/-- Embedding of `generateWeekName` (data-utils lines 131-143): empty
input yields no name, else the inclusive five-day range label. -/
def generateWeekName (s : String) : Option String :=
  if s = "" then none
  else
    match parseISODate s with
    | none => none
    | some startDate =>
        let endDate := addDaysNorm startDate 4
        some ("Semana " ++ formatDate startDate ++ " - " ++ formatDate endDate)

/-- Sakamoto's day-of-week table, giving JS `getDay` (0 = Sunday). -/
def sakamotoT : List Nat := [0, 3, 2, 5, 0, 3, 5, 1, 4, 6, 2, 4]

/-- Day of the week of a civil date, 0 = Sunday, matching `Date.getDay`. -/
def dayOfWeek (dt : CalDate) : Nat :=
  let y := if dt.month < 3 then dt.year - 1 else dt.year
  (y + y / 4 - y / 100 + y / 400 + sakamotoT.getD (dt.month - 1) 0 + dt.day) % 7

/-- The Portuguese weekday names of `handleAddTrip`. -/
def daysPT : List String :=
  ["Domingo", "Segunda-feira", "Terça-feira", "Quarta-feira",
   "Quinta-feira", "Sexta-feira", "Sábado"]

/-- The `"<Weekday> (<DD>/<MM>)"` day label of a trip. -/
def formatTripDay (dt : CalDate) : String :=
  daysPT.getD (dayOfWeek dt) "" ++ " (" ++ pad2 dt.day ++ "/" ++ pad2 dt.month ++ ")"

/-! ## The add-trip handler (App.tsx lines 212-269) -/

/-- Embedding of `handleAddTrip`.  `some d2` means the handler reached
`saveData(d2)`; `none` means it returned early (validation alert), with no
state mutation and no save. -/
def handleAddTrip (genId : String → String) (cmp : String → String → Bool)
    (data : AppData) (newTripDate : String) (newTripTypes : List TripType)
    (selectedExistingNames : List String) (newParticipantInput : String) :
    Option AppData :=
  if newTripDate = "" then none
  else if newTripTypes = [] then none
  else
    match parseISODate newTripDate with
    | none => none
    | some dt =>
        let formattedDate := formatTripDay dt
        let targetNames := computeTargetNames cmp selectedExistingNames newParticipantInput
        if targetNames = [] then none
        else
          some { data with
                 active_trips := newTripTypes.foldl
                   (fun acc ty => mergeTypeStep genId cmp formattedDate ty targetNames acc)
                   data.active_trips }

/-! ## Week rotation and deletion (App.tsx lines 133-149 and 186-198) -/

/-- Embedding of `autoArchiveCurrent`.  `suffix` abstracts the
time-dependent string appended by the collision branch,
`" (Arq. <date>-<ticker>)"`. -/
def autoArchiveCurrent (suffix : String) (d : AppData) : Option String × AppData :=
  let trips := d.active_trips
  let name := d.currentWeekName
  if trips.length > 0 ∨ (name ≠ DEFAULT_WEEK_NAME ∧ lookupSlot d.archives name = none) then
    let archiveName :=
      if (lookupSlot d.archives name).isSome ∨ name = DEFAULT_WEEK_NAME
      then name ++ suffix else name
    (some archiveName,
     { active_trips := [],
       currentWeekName := DEFAULT_WEEK_NAME,
       archives := setSlot d.archives archiveName trips })
  else
    (none, d)

/-- Embedding of the confirmed path of `handleDeleteWeek`: deleting the
active week clears it and resets the sentinel; deleting any other name
removes that archive slot. -/
def handleDeleteWeek (d : AppData) (weekName : String) : AppData :=
  if weekName = d.currentWeekName then
    { d with active_trips := [], currentWeekName := DEFAULT_WEEK_NAME }
  else
    { d with archives := d.archives.filter (fun kv => kv.1 ≠ weekName) }

/-! ## Debounced remote writes (`saveAppData`, data-utils lines 91-119) -/

/-- Remote writes actually performed for a chronological list of save
calls `(time, payload)`.  Each call cancels the pending `setTimeout` and
schedules its own payload 1000 ms later, so a payload is written exactly
when no further save arrives strictly within 1000 ms. -/
def remoteWrites {α : Type} : List (Nat × α) → List α
  | [] => []
  | [(_, d)] => [d]
  | (t1, d1) :: (t2, d2) :: rest =>
      if t2 < t1 + 1000 then remoteWrites ((t2, d2) :: rest)
      else d1 :: remoteWrites ((t2, d2) :: rest)

/-! ## Lemmas about properties and `sanitizeData` -/

/-- A lexicographic string comparator used to instantiate the abstract
`localeCompare` parameter in concrete witnesses. -/
def charListLe : List Char → List Char → Bool
  | [], _ => true
  | _ :: _, [] => false
  | a :: as, b :: bs => if a = b then charListLe as bs else decide (a < b)

/-- Comparator on strings by their character lists. -/
def strLe (a b : String) : Bool := charListLe a.data b.data

theorem getProp_setProp_self (ps : List (String × JVal)) (k : String) (v : JVal) :
    getProp (setProp ps k v) k = some v := by
  induction ps with
  | nil => simp [setProp, getProp]
  | cons hd tl ih =>
      obtain ⟨k1, v1⟩ := hd
      by_cases h : k1 = k
      · simp [setProp, h, getProp]
      · simp [setProp, h, getProp, ih]

theorem getProp_setProp_ne (ps : List (String × JVal)) (k k' : String) (v : JVal)
    (h : k' ≠ k) : getProp (setProp ps k v) k' = getProp ps k' := by
  induction ps with
  | nil => simp [setProp, getProp, Ne.symm h]
  | cons hd tl ih =>
      obtain ⟨k1, v1⟩ := hd
      by_cases h1 : k1 = k
      · subst h1
        simp [setProp, getProp, Ne.symm h]
      · simp [setProp, h1, getProp, ih]

theorem jGetField_jSetField_self {d d' : JVal} {k : String} {v : JVal}
    (h : jSetField d k v = Except.ok d') : jGetField d' k = some v := by
  cases d <;> simp [jSetField] at h <;>
    (subst h; simp [jGetField, getProp_setProp_self])

theorem jGetField_jSetField_ne {d d' : JVal} {k k' : String} {v : JVal}
    (h : jSetField d k v = Except.ok d') (hne : k' ≠ k) :
    jGetField d' k' = jGetField d k' := by
  cases d <;> simp [jSetField] at h <;>
    (subst h; simp [jGetField, getProp_setProp_ne _ _ _ _ hne])

theorem jTruthy_of_jSetField_ok {d d' : JVal} {k : String} {v : JVal}
    (h : jSetField d k v = Except.ok d') : jTruthy d' = true := by
  cases d <;> simp [jSetField] at h <;> (subst h; rfl)

theorem not_str_of_jSetField_ok {d d' : JVal} {k : String} {v : JVal}
    (h : jSetField d k v = Except.ok d') : ∀ s, d' ≠ JVal.str s := by
  cases d <;> simp [jSetField] at h <;> (subst h; intro s hs; cases hs)

theorem shape_of_jFieldFalsy_false {d : JVal} {k : String}
    (h : jFieldFalsy d k = false) :
    jTruthy d = true ∧ ∀ s, d ≠ JVal.str s := by
  cases d with
  | null => simp [jFieldFalsy, jGetField] at h
  | bool b => simp [jFieldFalsy, jGetField] at h
  | num n => simp [jFieldFalsy, jGetField] at h
  | str s => simp [jFieldFalsy, jGetField] at h
  | arr es ps => exact ⟨rfl, by intro s hs; cases hs⟩
  | obj ps => exact ⟨rfl, by intro s hs; cases hs⟩

/-- Every successful result of the defaulting steps is a non-string,
truthy value whose two reserved fields are truthy. -/
theorem sanitizeCore_stable {d w : JVal} (h : sanitizeCore d = Except.ok w) :
    jTruthy w = true ∧ (∀ s, w ≠ JVal.str s)
    ∧ jFieldFalsy w "active_trips" = false
    ∧ jFieldFalsy w "currentWeekName" = false := by
  unfold sanitizeCore at h
  cases he1 : sanitizeStep1 d with
  | error e => rw [he1] at h; cases h
  | ok d1 =>
      rw [he1] at h
      dsimp only at h
      have hat : jFieldFalsy d1 "active_trips" = false := by
        unfold sanitizeStep1 at he1
        by_cases h1 : jFieldFalsy d "active_trips"
        · rw [if_pos h1] at he1
          have := jGetField_jSetField_self he1
          simp [jFieldFalsy, this, jTruthy]
        · rw [if_neg h1] at he1
          cases he1
          simpa using h1
      unfold sanitizeStep2 at h
      by_cases h2 : jFieldFalsy d1 "currentWeekName"
      · rw [if_pos h2] at h
        refine ⟨jTruthy_of_jSetField_ok h, not_str_of_jSetField_ok h, ?_, ?_⟩
        · rw [jFieldFalsy, jGetField_jSetField_ne h (by decide)]
          simpa [jFieldFalsy] using hat
        · have := jGetField_jSetField_self h
          simp [jFieldFalsy, this, jTruthy, DEFAULT_WEEK_NAME]
      · rw [if_neg h2] at h
        cases h
        obtain ⟨ht, hs⟩ := shape_of_jFieldFalsy_false hat
        exact ⟨ht, hs, hat, by simpa using h2⟩

/-- Sanitizing the default document is the identity. -/
theorem sanitizeData_defaultDoc (parse : String → Option JVal) :
    sanitizeData parse defaultDoc = Except.ok defaultDoc := rfl

/-- Fixed-point property: every successful output of `sanitizeData` is
left unchanged when sanitized again. -/
theorem sanitizeData_ok_fixed {parse : String → Option JVal} {d w : JVal}
    (h : sanitizeData parse d = Except.ok w) :
    sanitizeData parse w = Except.ok w := by
  have fix : ∀ x : JVal, sanitizeCore x = Except.ok w →
      sanitizeData parse w = Except.ok w := by
    intro x hc
    obtain ⟨ht, hs, hat, hcw⟩ := sanitizeCore_stable hc
    have hs1 : sanitizeStep1 w = Except.ok w := by
      unfold sanitizeStep1
      rw [if_neg (by simp [hat])]
    have hs2 : sanitizeStep2 w = Except.ok w := by
      unfold sanitizeStep2
      rw [if_neg (by simp [hcw])]
    have hcore : sanitizeCore w = Except.ok w := by
      unfold sanitizeCore
      rw [hs1]
      exact hs2
    unfold sanitizeData
    rw [if_pos ht]
    cases w with
    | str s => exact absurd rfl (hs s)
    | null => exact hcore
    | bool b => exact hcore
    | num n => exact hcore
    | arr es ps => exact hcore
    | obj ps => exact hcore
  unfold sanitizeData at h
  by_cases ht : jTruthy d
  · rw [if_pos ht] at h
    cases d with
    | str s =>
        dsimp only at h
        cases hp : parse s with
        | none =>
            rw [hp] at h
            cases h
            exact sanitizeData_defaultDoc parse
        | some v =>
            rw [hp] at h
            exact fix v h
    | null => exact fix _ h
    | bool b => exact fix _ h
    | num n => exact fix _ h
    | arr es ps => exact fix _ h
    | obj ps => exact fix _ h
  · rw [if_neg ht] at h
    cases h
    exact sanitizeData_defaultDoc parse

/-- Field read on a sanitize result (`none` when the call threw). -/
def resField (r : Except Unit JVal) (k : String) : Option JVal :=
  match r with
  | Except.ok v => jGetField v k
  | Except.error _ => none

/-- C5 (code bug): `sanitizeData` is claimed never to raise, yet on the
non-null primitive `5` — whether received as a structured remote payload
or as the cached text `"5"` — the statement `data.active_trips = []`
assigns a property of a primitive, which throws a TypeError in
strict-mode ES modules instead of yielding the empty-document default. -/
theorem c5_sanitize_throws_on_primitive :
    sanitizeData (fun _ => none) (JVal.num 5) = Except.error ()
    ∧ sanitizeData (fun _ => some (JVal.num 5)) (JVal.str "5") = Except.error ()
    ∧ Except.error () ≠ Except.ok defaultDoc := by
  refine ⟨rfl, rfl, ?_⟩
  intro h
  cases h

/-- C6: sanitizing twice gives the same result as sanitizing once, for
every input value and every parse function (a thrown first sanitize
propagates unchanged, a successful one is a fixed point). -/
theorem c6_sanitize_idempotent (parse : String → Option JVal) (d : JVal) :
    (sanitizeData parse d).bind (sanitizeData parse) = sanitizeData parse d := by
  cases hd : sanitizeData parse d with
  | error e => rfl
  | ok w =>
      have := sanitizeData_ok_fixed hd
      simpa [Except.bind] using this

/-- Explicit success form of `sanitizeData` on an object input. -/
theorem sanitizeData_obj (parse : String → Option JVal) (props : List (String × JVal)) :
    sanitizeData parse (JVal.obj props)
      = Except.ok (JVal.obj
          (let ps1 := if jFieldFalsy (JVal.obj props) "active_trips"
                      then setProp props "active_trips" (JVal.arr [] [])
                      else props
           if jFieldFalsy (JVal.obj ps1) "currentWeekName"
           then setProp ps1 "currentWeekName" (JVal.str DEFAULT_WEEK_NAME)
           else ps1)) := by
  show sanitizeCore (JVal.obj props) = _
  unfold sanitizeCore sanitizeStep1 sanitizeStep2
  by_cases h1 : jFieldFalsy (JVal.obj props) "active_trips"
  · rw [if_pos h1]
    dsimp only [jSetField]
    rw [if_pos h1]
    by_cases h2 : jFieldFalsy
        (JVal.obj (setProp props "active_trips" (JVal.arr [] []))) "currentWeekName"
    · rw [if_pos h2, if_pos h2]
    · rw [if_neg h2, if_neg h2]
  · rw [if_neg h1]
    dsimp only
    rw [if_neg h1]
    by_cases h2 : jFieldFalsy (JVal.obj props) "currentWeekName"
    · rw [if_pos h2, if_pos h2]
      rfl
    · rw [if_neg h2, if_neg h2]

/-- C10 counterexample: on the object `{ active_trips: false }` the field
is present, yet sanitize replaces it with `[]` (JS tests `!data.active_trips`,
which is also true for a present falsy value), so the claim's "never
alters them when present" fails. -/
theorem c10_counterexample :
    jGetField (JVal.obj [("active_trips", JVal.bool false)]) "active_trips"
      = some (JVal.bool false)
    ∧ sanitizeData (fun _ => none) (JVal.obj [("active_trips", JVal.bool false)])
      = Except.ok (JVal.obj [("active_trips", JVal.arr [] []),
                             ("currentWeekName", JVal.str "Semana Atual")])
    ∧ JVal.bool false ≠ JVal.arr [] [] := by
  refine ⟨rfl, rfl, ?_⟩
  intro h
  cases h

/-- C10 (amended): for every non-null object input, sanitize succeeds and
preserves every key other than `active_trips` and `currentWeekName`
exactly; it fills `active_trips` with the empty sequence and
`currentWeekName` with the sentinel when the field is missing or
present with a falsy value, and leaves each unchanged when present with a
truthy value. -/
theorem c10_sanitize_frame (parse : String → Option JVal)
    (props : List (String × JVal)) :
    sanitizeData parse (JVal.obj props) ≠ Except.error ()
    ∧ (∀ k, k ≠ "active_trips" → k ≠ "currentWeekName" →
        resField (sanitizeData parse (JVal.obj props)) k = getProp props k)
    ∧ (jFieldFalsy (JVal.obj props) "active_trips" = true →
        resField (sanitizeData parse (JVal.obj props)) "active_trips"
          = some (JVal.arr [] []))
    ∧ (jFieldFalsy (JVal.obj props) "active_trips" = false →
        resField (sanitizeData parse (JVal.obj props)) "active_trips"
          = getProp props "active_trips")
    ∧ (jFieldFalsy (JVal.obj props) "currentWeekName" = true →
        resField (sanitizeData parse (JVal.obj props)) "currentWeekName"
          = some (JVal.str DEFAULT_WEEK_NAME))
    ∧ (jFieldFalsy (JVal.obj props) "currentWeekName" = false →
        resField (sanitizeData parse (JVal.obj props)) "currentWeekName"
          = getProp props "currentWeekName") := by
  rw [sanitizeData_obj parse props]
  have hcw : jFieldFalsy
      (JVal.obj (if jFieldFalsy (JVal.obj props) "active_trips"
                 then setProp props "active_trips" (JVal.arr [] [])
                 else props)) "currentWeekName"
      = jFieldFalsy (JVal.obj props) "currentWeekName" := by
    by_cases h1 : jFieldFalsy (JVal.obj props) "active_trips"
    · rw [if_pos h1]
      simp [jFieldFalsy, jGetField,
        getProp_setProp_ne props "active_trips" "currentWeekName" _ (by decide)]
    · rw [if_neg h1]
  refine ⟨(by intro h; cases h), ?_, ?_, ?_, ?_, ?_⟩
  · intro k hk1 hk2
    dsimp only [resField, jGetField]
    rw [hcw]
    by_cases h2 : jFieldFalsy (JVal.obj props) "currentWeekName" <;>
      by_cases h1 : jFieldFalsy (JVal.obj props) "active_trips" <;>
        simp [h1, h2, getProp_setProp_ne _ _ _ _ hk1, getProp_setProp_ne _ _ _ _ hk2]
  · intro hat
    dsimp only [resField, jGetField]
    rw [hcw]
    by_cases h2 : jFieldFalsy (JVal.obj props) "currentWeekName" <;>
      simp [hat, h2, getProp_setProp_self,
        getProp_setProp_ne _ _ _ _ (show "active_trips" ≠ "currentWeekName" by decide)]
  · intro hat
    dsimp only [resField, jGetField]
    rw [hcw]
    by_cases h2 : jFieldFalsy (JVal.obj props) "currentWeekName" <;>
      simp [hat, h2,
        getProp_setProp_ne _ _ _ _ (show "active_trips" ≠ "currentWeekName" by decide)]
  · intro hcw2
    dsimp only [resField, jGetField]
    rw [hcw, hcw2]
    by_cases h1 : jFieldFalsy (JVal.obj props) "active_trips" <;>
      simp [h1, getProp_setProp_self]
  · intro hcw2
    dsimp only [resField, jGetField]
    rw [hcw, hcw2]
    by_cases h1 : jFieldFalsy (JVal.obj props) "active_trips" <;>
      simp [h1,
        getProp_setProp_ne _ _ _ _ (show "currentWeekName" ≠ "active_trips" by decide)]

/-- C10 witness: a concrete object with an unrelated key and a missing
`active_trips` field, run through the amended frame theorem. -/
theorem c10_witness :
    resField (sanitizeData (fun _ => none) (JVal.obj [("foo", JVal.num 7)])) "foo"
      = some (JVal.num 7)
    ∧ resField (sanitizeData (fun _ => none) (JVal.obj [("foo", JVal.num 7)]))
        "active_trips" = some (JVal.arr [] []) := by
  have h := c10_sanitize_frame (fun _ => none) [("foo", JVal.num 7)]
  refine ⟨?_, ?_⟩
  · have := h.2.1 "foo" (by decide) (by decide)
    rw [this]
    rfl
  · exact h.2.2.1 rfl

/-! ## Lemmas about sorting and the merge resolver -/

theorem mem_insertSorted {le : α → α → Bool} {a x : α} {l : List α} :
    x ∈ insertSorted le a l ↔ x = a ∨ x ∈ l := by
  induction l with
  | nil => simp [insertSorted]
  | cons b bs ih =>
      by_cases h : le a b
      · simp [insertSorted, h]
      · simp [insertSorted, h, ih]
        tauto

theorem mem_sortBy {le : α → α → Bool} {x : α} {l : List α} :
    x ∈ sortBy le l ↔ x ∈ l := by
  induction l with
  | nil => simp [sortBy]
  | cons a as ih =>
      show x ∈ insertSorted le a (sortBy le as) ↔ _
      rw [mem_insertSorted]
      simp [ih]

theorem findByName_some_name {ps : List Participant} {n : String} {p : Participant}
    (h : findByName ps n = some p) : p.name = n := by
  induction ps with
  | nil => cases h
  | cons q qs ih =>
      by_cases hq : q.name = n
      · rw [findByName, if_pos hq] at h
        cases h
        exact hq
      · rw [findByName, if_neg hq] at h
        exact ih h

theorem resolveName_name (genId : String → String) (t : Trip) (n : String) :
    (resolveName genId t n).name = n := by
  unfold resolveName
  cases h : findByName t.participants n with
  | none => rfl
  | some p => exact findByName_some_name h

theorem mem_mergeParticipants {genId : String → String} {cmp : String → String → Bool}
    {t : Trip} {names : List String} {p : Participant} :
    p ∈ mergeParticipants genId cmp t names ↔ ∃ n ∈ names, p = resolveName genId t n := by
  unfold mergeParticipants
  rw [mem_sortBy, List.mem_map]
  constructor
  · rintro ⟨n, hn, rfl⟩
    exact ⟨n, hn, rfl⟩
  · rintro ⟨n, hn, rfl⟩
    exact ⟨n, hn, rfl⟩

theorem findTrip_mergeTypeStep (genId : String → String) (cmp : String → String → Bool)
    (fd : String) (ty : TripType) (names : List String) {trips : List Trip} {t : Trip}
    (hfind : findTrip trips fd ty = some t) :
    findTrip (mergeTypeStep genId cmp fd ty names trips) fd ty
      = some { t with participants := mergeParticipants genId cmp t names } := by
  induction trips with
  | nil => cases hfind
  | cons a as ih =>
      by_cases h : a.day = fd ∧ a.type = ty
      · rw [findTrip, if_pos h] at hfind
        cases hfind
        rw [mergeTypeStep, if_pos h, findTrip, if_pos (by simpa using h)]
      · rw [findTrip, if_neg h] at hfind
        rw [mergeTypeStep, if_neg h, findTrip, if_neg h]
        exact ih hfind

/-- C1: when the document's active trips already contain a trip with the
given day and direction, merging a non-empty target name set replaces
that trip's participant list with one resolved name by name — each name
already on the trip keeps its exact existing record (same id, same paid
value), each new name gets a fresh participant with `paid = false`, and
every resulting participant is named by a target name, so old names
absent from the target set are dropped and the result's name set equals
the target set. -/
theorem c1_merge_preserves_paid (genId : String → String)
    (cmp : String → String → Bool) (fd : String) (ty : TripType)
    (trips : List Trip) (names : List String) (t : Trip)
    (hne : names ≠ [])
    (hfind : findTrip trips fd ty = some t) :
    findTrip (mergeTypeStep genId cmp fd ty names trips) fd ty
      = some { t with participants := mergeParticipants genId cmp t names }
    ∧ (∀ p ∈ mergeParticipants genId cmp t names, p.name ∈ names)
    ∧ (∀ n ∈ names,
        (∀ q, findByName t.participants n = some q →
            q ∈ mergeParticipants genId cmp t names)
        ∧ (findByName t.participants n = none →
            ({ id := genId n, name := n, paid := false } : Participant)
              ∈ mergeParticipants genId cmp t names)
        ∧ ∃ p ∈ mergeParticipants genId cmp t names, p.name = n) := by
  refine ⟨findTrip_mergeTypeStep genId cmp fd ty names hfind, ?_, ?_⟩
  · intro p hp
    obtain ⟨n, hn, rfl⟩ := mem_mergeParticipants.mp hp
    rw [resolveName_name]
    exact hn
  · intro n hn
    refine ⟨?_, ?_, ?_⟩
    · intro q hq
      refine mem_mergeParticipants.mpr ⟨n, hn, ?_⟩
      rw [resolveName, hq]
    · intro hnone
      refine mem_mergeParticipants.mpr ⟨n, hn, ?_⟩
      rw [resolveName, hnone]
    · exact ⟨resolveName genId t n, mem_mergeParticipants.mpr ⟨n, hn, rfl⟩,
        resolveName_name genId t n⟩

/-- C1 witness: re-merging `["Bruno", "Carla"]` into a trip holding Ana
(paid) and Bruno keeps Bruno's exact record and drops Ana. -/
theorem c1_witness :
    findTrip
      (mergeTypeStep (fun n => String.append "id-" n) strLe "Segunda-feira (03/06)"
        TripType.Ida ["Bruno", "Carla"]
        [⟨"Segunda-feira (03/06)", none, TripType.Ida,
          [⟨"p1", "Ana", true⟩, ⟨"p2", "Bruno", false⟩]⟩])
      "Segunda-feira (03/06)" TripType.Ida
      = some ⟨"Segunda-feira (03/06)", none, TripType.Ida,
          mergeParticipants (fun n => String.append "id-" n) strLe
            ⟨"Segunda-feira (03/06)", none, TripType.Ida,
              [⟨"p1", "Ana", true⟩, ⟨"p2", "Bruno", false⟩]⟩ ["Bruno", "Carla"]⟩
    ∧ (⟨"p2", "Bruno", false⟩ : Participant)
        ∈ mergeParticipants (fun n => String.append "id-" n) strLe
            ⟨"Segunda-feira (03/06)", none, TripType.Ida,
              [⟨"p1", "Ana", true⟩, ⟨"p2", "Bruno", false⟩]⟩ ["Bruno", "Carla"] := by
  have h := c1_merge_preserves_paid (fun n => String.append "id-" n) strLe
    "Segunda-feira (03/06)" TripType.Ida
    [⟨"Segunda-feira (03/06)", none, TripType.Ida,
      [⟨"p1", "Ana", true⟩, ⟨"p2", "Bruno", false⟩]⟩]
    ["Bruno", "Carla"]
    ⟨"Segunda-feira (03/06)", none, TripType.Ida,
      [⟨"p1", "Ana", true⟩, ⟨"p2", "Bruno", false⟩]⟩
    (by intro hx; cases hx) rfl
  exact ⟨h.1, (h.2.2 "Bruno" (by decide)).1 ⟨"p2", "Bruno", false⟩ rfl⟩

/-! ## Lemmas about archive slots and week rotation -/

theorem lookupSlot_setSlot_self (ar : List (String × List Trip)) (k : String)
    (v : List Trip) : lookupSlot (setSlot ar k v) k = some v := by
  induction ar with
  | nil => simp [setSlot, lookupSlot]
  | cons hd tl ih =>
      obtain ⟨k1, v1⟩ := hd
      by_cases h : k1 = k
      · simp [setSlot, h, lookupSlot]
      · simp [setSlot, h, lookupSlot, ih]

theorem lookupSlot_setSlot_ne (ar : List (String × List Trip)) (k k' : String)
    (v : List Trip) (h : k' ≠ k) :
    lookupSlot (setSlot ar k v) k' = lookupSlot ar k' := by
  induction ar with
  | nil => simp [setSlot, lookupSlot, Ne.symm h]
  | cons hd tl ih =>
      obtain ⟨k1, v1⟩ := hd
      by_cases h1 : k1 = k
      · subst h1
        simp [setSlot, lookupSlot, Ne.symm h]
      · simp [setSlot, h1, lookupSlot, ih]

/-- C3: rotation is a no-op returning no archive name exactly when the
active trips are empty and the week name is the sentinel or already
archived; in every other case the returned key stores the active-trips
snapshot, the active trips are cleared, and the week name is reset to the
sentinel. -/
theorem c3_rotation_cases (suffix : String) (d : AppData) :
    ((autoArchiveCurrent suffix d).1 = none ↔
      (d.active_trips = []
        ∧ (d.currentWeekName = DEFAULT_WEEK_NAME
            ∨ (lookupSlot d.archives d.currentWeekName).isSome = true)))
    ∧ ((autoArchiveCurrent suffix d).1 = none → (autoArchiveCurrent suffix d).2 = d)
    ∧ (∀ k, (autoArchiveCurrent suffix d).1 = some k →
        lookupSlot (autoArchiveCurrent suffix d).2.archives k = some d.active_trips
        ∧ (autoArchiveCurrent suffix d).2.active_trips = []
        ∧ (autoArchiveCurrent suffix d).2.currentWeekName = DEFAULT_WEEK_NAME) := by
  unfold autoArchiveCurrent
  by_cases hc : d.active_trips.length > 0
    ∨ (d.currentWeekName ≠ DEFAULT_WEEK_NAME
        ∧ lookupSlot d.archives d.currentWeekName = none)
  · rw [if_pos hc]
    refine ⟨?_, ?_, ?_⟩
    · simp only []
      constructor
      · intro h
        cases h
      · rintro ⟨h1, h2⟩
        rcases hc with hlen | ⟨hne, hnone⟩
        · rw [h1] at hlen
          cases hlen
        · rcases h2 with h2 | h2
          · exact absurd h2 hne
          · rw [hnone] at h2
            cases h2
    · intro h
      cases h
    · intro k hk
      have hk2 : (if (lookupSlot d.archives d.currentWeekName).isSome
            ∨ d.currentWeekName = DEFAULT_WEEK_NAME
          then d.currentWeekName ++ suffix else d.currentWeekName) = k := by
        simpa using hk
      refine ⟨?_, rfl, rfl⟩
      simp only []
      rw [← hk2, lookupSlot_setSlot_self]
  · rw [if_neg hc]
    push_neg at hc
    obtain ⟨hlen, himp⟩ := hc
    have htrips : d.active_trips = [] := by
      cases he : d.active_trips with
      | nil => rfl
      | cons a as => rw [he] at hlen; simp at hlen
    refine ⟨?_, fun _ => rfl, ?_⟩
    · simp only []
      constructor
      · intro _
        refine ⟨htrips, ?_⟩
        by_cases hname : d.currentWeekName = DEFAULT_WEEK_NAME
        · exact Or.inl hname
        · right
          have := himp hname
          cases hlk : lookupSlot d.archives d.currentWeekName with
          | none => exact absurd hlk this
          | some v => rfl
      · intro _
        trivial
    · intro k hk
      cases hk

/-- C3 witness: a document with one active trip and a fresh non-sentinel
week name is archived under that name, cleared, and reset. -/
theorem c3_witness :
    lookupSlot ((autoArchiveCurrent " (Arq. z)"
        ⟨[⟨"Seg (01/01)", none, TripType.Ida, []⟩], "Week1", []⟩).2).archives "Week1"
      = some [⟨"Seg (01/01)", none, TripType.Ida, []⟩]
    ∧ (autoArchiveCurrent " (Arq. z)"
        ⟨[⟨"Seg (01/01)", none, TripType.Ida, []⟩], "Week1", []⟩).2.active_trips = []
    ∧ (autoArchiveCurrent " (Arq. z)"
        ⟨[⟨"Seg (01/01)", none, TripType.Ida, []⟩], "Week1", []⟩).2.currentWeekName
      = DEFAULT_WEEK_NAME := by
  exact (c3_rotation_cases " (Arq. z)"
    ⟨[⟨"Seg (01/01)", none, TripType.Ida, []⟩], "Week1", []⟩).2.2 "Week1" (by decide)

/-- C4 counterexample: when the synthesized disambiguated key itself
collides with an existing archive slot, rotation overwrites that slot:
with week name `"W"` already archived and a slot `"W (Arq. x)"` present,
rotating with suffix `" (Arq. x)"` stores under the existing key
`"W (Arq. x)"` and replaces its contents. -/
theorem c4_counterexample :
    (autoArchiveCurrent " (Arq. x)"
        ⟨[⟨"Qua (03/01)", none, TripType.Volta, []⟩], "W",
          [("W", [⟨"Seg (01/01)", none, TripType.Ida, []⟩]),
           ("W (Arq. x)", [⟨"Ter (02/01)", none, TripType.Ida, []⟩])]⟩).1
      = some "W (Arq. x)"
    ∧ lookupSlot
        (⟨[⟨"Qua (03/01)", none, TripType.Volta, []⟩], "W",
          [("W", [⟨"Seg (01/01)", none, TripType.Ida, []⟩]),
           ("W (Arq. x)", [⟨"Ter (02/01)", none, TripType.Ida, []⟩])]⟩ : AppData).archives
        "W (Arq. x)"
      = some [⟨"Ter (02/01)", none, TripType.Ida, []⟩]
    ∧ lookupSlot
        ((autoArchiveCurrent " (Arq. x)"
          ⟨[⟨"Qua (03/01)", none, TripType.Volta, []⟩], "W",
            [("W", [⟨"Seg (01/01)", none, TripType.Ida, []⟩]),
             ("W (Arq. x)", [⟨"Ter (02/01)", none, TripType.Ida, []⟩])]⟩).2).archives
        "W (Arq. x)"
      = some [⟨"Qua (03/01)", none, TripType.Volta, []⟩]
    ∧ [(⟨"Ter (02/01)", none, TripType.Ida, []⟩ : Trip)]
        ≠ [⟨"Qua (03/01)", none, TripType.Volta, []⟩] := by
  refine ⟨by decide, by decide, by decide, by decide⟩

/-- C4 (amended): provided the disambiguated key `currentWeekName ++
suffix` is not itself an existing archive slot key, the key rotation
stores under is distinct from every existing archive slot key and every
pre-existing slot keeps its prior contents. -/
theorem c4_no_overwrite_of_fresh_suffix (suffix : String) (d : AppData) (k : String)
    (hk : (autoArchiveCurrent suffix d).1 = some k)
    (hfresh : lookupSlot d.archives (d.currentWeekName ++ suffix) = none) :
    lookupSlot d.archives k = none
    ∧ ∀ k2 v, lookupSlot d.archives k2 = some v →
        lookupSlot (autoArchiveCurrent suffix d).2.archives k2 = some v := by
  unfold autoArchiveCurrent at hk ⊢
  by_cases hc : d.active_trips.length > 0
    ∨ (d.currentWeekName ≠ DEFAULT_WEEK_NAME
        ∧ lookupSlot d.archives d.currentWeekName = none)
  · rw [if_pos hc] at hk ⊢
    have hk2 : (if (lookupSlot d.archives d.currentWeekName).isSome
          ∨ d.currentWeekName = DEFAULT_WEEK_NAME
        then d.currentWeekName ++ suffix else d.currentWeekName) = k := by
      simpa using hk
    have hknone : lookupSlot d.archives k = none := by
      rw [← hk2]
      by_cases hcoll : (lookupSlot d.archives d.currentWeekName).isSome
        ∨ d.currentWeekName = DEFAULT_WEEK_NAME
      · rw [if_pos hcoll]
        exact hfresh
      · rw [if_neg hcoll]
        push_neg at hcoll
        cases hlk : lookupSlot d.archives d.currentWeekName with
        | none => rfl
        | some v => rw [hlk] at hcoll; simp at hcoll
    refine ⟨hknone, ?_⟩
    intro k2 v hv
    have hne : k2 ≠ k := by
      intro he
      rw [he, hknone] at hv
      cases hv
    simp only []
    rw [hk2, lookupSlot_setSlot_ne _ _ _ _ hne]
    exact hv
  · rw [if_neg hc] at hk
    cases hk

/-- C4 witness: rotating a sentinel-named week with one trip and an
unrelated archive slot uses the fresh synthesized key and keeps the old
slot intact. -/
theorem c4_witness :
    lookupSlot
      ([("Old", [⟨"Seg (01/01)", none, TripType.Ida, []⟩])] : List (String × List Trip))
      "Semana Atual (Arq. q)" = none
    ∧ lookupSlot
        ((autoArchiveCurrent " (Arq. q)"
          ⟨[⟨"Ter (02/01)", none, TripType.Volta, []⟩], "Semana Atual",
            [("Old", [⟨"Seg (01/01)", none, TripType.Ida, []⟩])]⟩).2).archives "Old"
      = some [⟨"Seg (01/01)", none, TripType.Ida, []⟩] := by
  have h := c4_no_overwrite_of_fresh_suffix " (Arq. q)"
    ⟨[⟨"Ter (02/01)", none, TripType.Volta, []⟩], "Semana Atual",
      [("Old", [⟨"Seg (01/01)", none, TripType.Ida, []⟩])]⟩
    "Semana Atual (Arq. q)" (by decide) (by decide)
  exact ⟨h.1, h.2 "Old" [⟨"Seg (01/01)", none, TripType.Ida, []⟩] (by decide)⟩

/-! ## Lemmas about week deletion -/

theorem lookupSlot_filter_self (ar : List (String × List Trip)) (w : String) :
    lookupSlot (ar.filter (fun kv => kv.1 ≠ w)) w = none := by
  induction ar with
  | nil => rfl
  | cons hd tl ih =>
      obtain ⟨k1, v1⟩ := hd
      rw [List.filter_cons]
      by_cases h : k1 = w
      · rw [if_neg (by simp [h])]
        exact ih
      · rw [if_pos (by simp [h])]
        simp only [lookupSlot]
        rw [if_neg h]
        exact ih

theorem lookupSlot_filter_ne (ar : List (String × List Trip)) (w k : String)
    (h : k ≠ w) :
    lookupSlot (ar.filter (fun kv => kv.1 ≠ w)) k = lookupSlot ar k := by
  induction ar with
  | nil => rfl
  | cons hd tl ih =>
      obtain ⟨k1, v1⟩ := hd
      rw [List.filter_cons]
      by_cases h1 : k1 = w
      · rw [if_neg (by simp [h1])]
        rw [ih]
        simp only [lookupSlot]
        rw [if_neg (show ¬k1 = k from fun he => h (he ▸ h1))]
      · rw [if_pos (by simp [h1])]
        simp only [lookupSlot]
        by_cases h2 : k1 = k
        · rw [if_pos h2, if_pos h2]
        · rw [if_neg h2, if_neg h2]
          exact ih

/-- C9: deleting the week named like the current week clears the active
trips and resets the sentinel while every archive slot keeps its exact
prior contents; deleting any other week name removes only that archive
slot and changes nothing else. -/
theorem c9_delete_week (d : AppData) (w : String) :
    (w = d.currentWeekName →
      (handleDeleteWeek d w).active_trips = []
      ∧ (handleDeleteWeek d w).currentWeekName = DEFAULT_WEEK_NAME
      ∧ (handleDeleteWeek d w).archives = d.archives)
    ∧ (w ≠ d.currentWeekName →
      lookupSlot (handleDeleteWeek d w).archives w = none
      ∧ (∀ k, k ≠ w →
          lookupSlot (handleDeleteWeek d w).archives k = lookupSlot d.archives k)
      ∧ (handleDeleteWeek d w).active_trips = d.active_trips
      ∧ (handleDeleteWeek d w).currentWeekName = d.currentWeekName) := by
  constructor
  · intro h
    unfold handleDeleteWeek
    rw [if_pos h]
    exact ⟨rfl, rfl, rfl⟩
  · intro h
    unfold handleDeleteWeek
    rw [if_neg h]
    exact ⟨lookupSlot_filter_self d.archives w,
      fun k hk => lookupSlot_filter_ne d.archives w k hk, rfl, rfl⟩

/-- C9 witness: deleting the archived week `"Old"` from a document whose
current week is `"Now"` removes only that slot, and deleting `"Now"`
itself clears the active trips and keeps the archive. -/
theorem c9_witness :
    lookupSlot (handleDeleteWeek
        ⟨[⟨"Seg (01/01)", none, TripType.Ida, []⟩], "Now",
          [("Old", []), ("Keep", [⟨"Ter (02/01)", none, TripType.Volta, []⟩])]⟩
        "Old").archives "Old" = none
    ∧ lookupSlot (handleDeleteWeek
        ⟨[⟨"Seg (01/01)", none, TripType.Ida, []⟩], "Now",
          [("Old", []), ("Keep", [⟨"Ter (02/01)", none, TripType.Volta, []⟩])]⟩
        "Old").archives "Keep" = some [⟨"Ter (02/01)", none, TripType.Volta, []⟩]
    ∧ (handleDeleteWeek
        ⟨[⟨"Seg (01/01)", none, TripType.Ida, []⟩], "Now",
          [("Old", []), ("Keep", [⟨"Ter (02/01)", none, TripType.Volta, []⟩])]⟩
        "Now").archives
      = [("Old", []), ("Keep", [⟨"Ter (02/01)", none, TripType.Volta, []⟩])] := by
  have h1 := (c9_delete_week
    ⟨[⟨"Seg (01/01)", none, TripType.Ida, []⟩], "Now",
      [("Old", []), ("Keep", [⟨"Ter (02/01)", none, TripType.Volta, []⟩])]⟩
    "Old").2 (by decide)
  have h2 := (c9_delete_week
    ⟨[⟨"Seg (01/01)", none, TripType.Ida, []⟩], "Now",
      [("Old", []), ("Keep", [⟨"Ter (02/01)", none, TripType.Volta, []⟩])]⟩
    "Now").1 rfl
  refine ⟨h1.1, ?_, h2.2.2⟩
  rw [h1.2.1 "Keep" (by decide)]
  rfl

/-! ## The debounce property -/

/-- C2: for every nonempty chronological burst of save calls in which
each call arrives strictly less than 1000 ms after the previous one,
exactly one remote write is performed and its payload is the last save's
document; no earlier payload is ever written. -/
theorem c2_debounce_coalesces {α : Type} (saves : List (Nat × α)) (h : saves ≠ [])
    (hchain : saves.Chain' (fun a b => b.1 < a.1 + 1000)) :
    remoteWrites saves = [(saves.getLast h).2] := by
  induction saves with
  | nil => cases h rfl
  | cons a l ih =>
      cases l with
      | nil =>
          obtain ⟨t1, d1⟩ := a
          rfl
      | cons b m =>
          obtain ⟨t1, d1⟩ := a
          obtain ⟨t2, d2⟩ := b
          have hab : t2 < t1 + 1000 := (List.chain'_cons.mp hchain).1
          have htail : List.Chain' (fun a b => b.1 < a.1 + 1000) ((t2, d2) :: m) :=
            (List.chain'_cons.mp hchain).2
          have hstep : remoteWrites ((t1, d1) :: (t2, d2) :: m)
              = remoteWrites ((t2, d2) :: m) := by
            rw [remoteWrites, if_pos hab]
          rw [hstep, ih (List.cons_ne_nil _ _) htail]
          rfl

/-- C2 witness: three saves at 0, 500 and 900 ms coalesce into a single
remote write of the last payload. -/
theorem c2_witness :
    remoteWrites [(0, 10), (500, 20), (900, 30)] = [30] := by
  have h := c2_debounce_coalesces [(0, (10 : Nat)), (500, 20), (900, 30)]
    (List.cons_ne_nil _ _)
    (List.chain'_cons.mpr ⟨by decide,
      List.chain'_cons.mpr ⟨by decide, List.chain'_singleton _⟩⟩)
  simpa using h

/-! ## Calendar lemmas for the week-name derivation -/

theorem daysInMonth_ge (y m : Nat) : 28 ≤ daysInMonth y m := by
  unfold daysInMonth
  split
  · split <;> omega
  · split <;> omega

theorem daysInMonth_le (y m : Nat) : daysInMonth y m ≤ 31 := by
  unfold daysInMonth
  split
  · split <;> omega
  · split <;> omega

theorem nextDay_mid {y m d : Nat} (h : d < daysInMonth y m) :
    nextDay ⟨y, m, d⟩ = ⟨y, m, d + 1⟩ := by
  unfold nextDay
  rw [if_pos h]

theorem nextDay_endMonth {y m d : Nat} (hd : d = daysInMonth y m) (hm : m < 12) :
    nextDay ⟨y, m, d⟩ = ⟨y, m + 1, 1⟩ := by
  unfold nextDay
  dsimp only
  rw [if_neg (by omega), if_pos hm]

theorem nextDay_endYear {y m d : Nat} (hd : d = daysInMonth y m) (hm : ¬m < 12) :
    nextDay ⟨y, m, d⟩ = ⟨y + 1, 1, 1⟩ := by
  unfold nextDay
  dsimp only
  rw [if_neg (by omega), if_neg hm]

/-- For a valid date, the source's `setDate(getDate() + 4)` normalization
coincides with four applications of the calendar successor, i.e. the end
of the week label really is the fourth calendar day after the start (an
inclusive range of five days). -/
theorem addDaysNorm_four (dt : CalDate) (hv : ValidDate dt) :
    addDaysNorm dt 4 = nextDay (nextDay (nextDay (nextDay dt))) := by
  obtain ⟨y, m, d⟩ := dt
  obtain ⟨hm1, hm2, hd1, hd2⟩ := hv
  dsimp only at hm1 hm2 hd1 hd2
  have hD : 28 ≤ daysInMonth y m := daysInMonth_ge y m
  by_cases h4 : d + 4 ≤ daysInMonth y m
  · have g1 : nextDay ⟨y, m, d⟩ = ⟨y, m, d + 1⟩ := nextDay_mid (by omega)
    have g2 : nextDay ⟨y, m, d + 1⟩ = ⟨y, m, d + 2⟩ := nextDay_mid (by omega)
    have g3 : nextDay ⟨y, m, d + 2⟩ = ⟨y, m, d + 3⟩ := nextDay_mid (by omega)
    have g4 : nextDay ⟨y, m, d + 3⟩ = ⟨y, m, d + 4⟩ := nextDay_mid (by omega)
    rw [g1, g2, g3, g4]
    unfold addDaysNorm
    rw [if_pos h4]
  · have hstep : nextDay ⟨y, m, daysInMonth y m⟩
        = if m < 12 then (⟨y, m + 1, 1⟩ : CalDate) else ⟨y + 1, 1, 1⟩ := by
      by_cases hm12 : m < 12
      · rw [if_pos hm12, nextDay_endMonth rfl hm12]
      · rw [if_neg hm12, nextDay_endYear rfl hm12]
    have hcase : daysInMonth y m - d = 0 ∨ daysInMonth y m - d = 1
        ∨ daysInMonth y m - d = 2 ∨ daysInMonth y m - d = 3 := by omega
    rcases hcase with hc | hc | hc | hc
    · -- d = end of month: rollover, then three increments in the new month
      have hdD : d = daysInMonth y m := by omega
      subst hdD
      rw [hstep]
      by_cases hm12 : m < 12
      · have h28 : 28 ≤ daysInMonth y (m + 1) := daysInMonth_ge y (m + 1)
        have f1 : nextDay ⟨y, m + 1, 1⟩ = ⟨y, m + 1, 2⟩ := nextDay_mid (by omega)
        have f2 : nextDay ⟨y, m + 1, 2⟩ = ⟨y, m + 1, 3⟩ := nextDay_mid (by omega)
        have f3 : nextDay ⟨y, m + 1, 3⟩ = ⟨y, m + 1, 4⟩ := nextDay_mid (by omega)
        rw [if_pos hm12, f1, f2, f3]
        unfold addDaysNorm
        dsimp only
        rw [if_neg (by omega), if_neg (by omega)]
        simp only [CalDate.mk.injEq, true_and]
        omega
      · have h28 : 28 ≤ daysInMonth (y + 1) 1 := daysInMonth_ge (y + 1) 1
        have f1 : nextDay ⟨y + 1, 1, 1⟩ = ⟨y + 1, 1, 2⟩ := nextDay_mid (by omega)
        have f2 : nextDay ⟨y + 1, 1, 2⟩ = ⟨y + 1, 1, 3⟩ := nextDay_mid (by omega)
        have f3 : nextDay ⟨y + 1, 1, 3⟩ = ⟨y + 1, 1, 4⟩ := nextDay_mid (by omega)
        rw [if_neg hm12, f1, f2, f3]
        unfold addDaysNorm
        dsimp only
        rw [if_neg (by omega), if_pos (by omega)]
        simp only [CalDate.mk.injEq, true_and]
        omega
    · -- one increment, rollover, then two increments in the new month
      have e1 : nextDay ⟨y, m, d⟩ = ⟨y, m, daysInMonth y m⟩ := by
        rw [nextDay_mid (by omega)]
        simp only [CalDate.mk.injEq, true_and]
        omega
      rw [e1, hstep]
      by_cases hm12 : m < 12
      · have h28 : 28 ≤ daysInMonth y (m + 1) := daysInMonth_ge y (m + 1)
        have f1 : nextDay ⟨y, m + 1, 1⟩ = ⟨y, m + 1, 2⟩ := nextDay_mid (by omega)
        have f2 : nextDay ⟨y, m + 1, 2⟩ = ⟨y, m + 1, 3⟩ := nextDay_mid (by omega)
        rw [if_pos hm12, f1, f2]
        unfold addDaysNorm
        dsimp only
        rw [if_neg (by omega), if_neg (by omega)]
        simp only [CalDate.mk.injEq, true_and]
        omega
      · have h28 : 28 ≤ daysInMonth (y + 1) 1 := daysInMonth_ge (y + 1) 1
        have f1 : nextDay ⟨y + 1, 1, 1⟩ = ⟨y + 1, 1, 2⟩ := nextDay_mid (by omega)
        have f2 : nextDay ⟨y + 1, 1, 2⟩ = ⟨y + 1, 1, 3⟩ := nextDay_mid (by omega)
        rw [if_neg hm12, f1, f2]
        unfold addDaysNorm
        dsimp only
        rw [if_neg (by omega), if_pos (by omega)]
        simp only [CalDate.mk.injEq, true_and]
        omega
    · -- two increments, rollover, then one increment in the new month
      have e1 : nextDay ⟨y, m, d⟩ = ⟨y, m, d + 1⟩ := nextDay_mid (by omega)
      have e2 : nextDay ⟨y, m, d + 1⟩ = ⟨y, m, daysInMonth y m⟩ := by
        rw [nextDay_mid (by omega)]
        simp only [CalDate.mk.injEq, true_and]
        omega
      rw [e1, e2, hstep]
      by_cases hm12 : m < 12
      · have h28 : 28 ≤ daysInMonth y (m + 1) := daysInMonth_ge y (m + 1)
        have f1 : nextDay ⟨y, m + 1, 1⟩ = ⟨y, m + 1, 2⟩ := nextDay_mid (by omega)
        rw [if_pos hm12, f1]
        unfold addDaysNorm
        dsimp only
        rw [if_neg (by omega), if_neg (by omega)]
        simp only [CalDate.mk.injEq, true_and]
        omega
      · have h28 : 28 ≤ daysInMonth (y + 1) 1 := daysInMonth_ge (y + 1) 1
        have f1 : nextDay ⟨y + 1, 1, 1⟩ = ⟨y + 1, 1, 2⟩ := nextDay_mid (by omega)
        rw [if_neg hm12, f1]
        unfold addDaysNorm
        dsimp only
        rw [if_neg (by omega), if_pos (by omega)]
        simp only [CalDate.mk.injEq, true_and]
        omega
    · -- three increments, then the rollover lands exactly on the fourth step
      have e1 : nextDay ⟨y, m, d⟩ = ⟨y, m, d + 1⟩ := nextDay_mid (by omega)
      have e2 : nextDay ⟨y, m, d + 1⟩ = ⟨y, m, d + 2⟩ := nextDay_mid (by omega)
      have e3 : nextDay ⟨y, m, d + 2⟩ = ⟨y, m, daysInMonth y m⟩ := by
        rw [nextDay_mid (by omega)]
        simp only [CalDate.mk.injEq, true_and]
        omega
      rw [e1, e2, e3, hstep]
      by_cases hm12 : m < 12
      · rw [if_pos hm12]
        unfold addDaysNorm
        dsimp only
        rw [if_neg (by omega), if_neg (by omega)]
        simp only [CalDate.mk.injEq, true_and]
        omega
      · rw [if_neg hm12]
        unfold addDaysNorm
        dsimp only
        rw [if_neg (by omega), if_pos (by omega)]
        simp only [CalDate.mk.injEq, true_and]
        omega

/-- C7: with no start date supplied the derivation returns no name; for
every well-formed `YYYY-MM-DD` start date it returns
`"Semana <start DD/MM/YYYY> - <end DD/MM/YYYY>"` where the end date is
the fourth calendar successor of the start date, i.e. the label covers an
inclusive range of five calendar days. -/
theorem c7_generateWeekName :
    generateWeekName "" = none
    ∧ ∀ (s : String) (ys ms ds : List Char) (y m d : Nat),
        s ≠ "" →
        splitOnChar '-' s.data = [ys, ms, ds] →
        parseDigits ys = some y →
        parseDigits ms = some m →
        parseDigits ds = some d →
        ValidDate ⟨y, m, d⟩ →
        generateWeekName s
          = some ("Semana " ++ formatDate ⟨y, m, d⟩ ++ " - "
              ++ formatDate (nextDay (nextDay (nextDay (nextDay ⟨y, m, d⟩))))) := by
  refine ⟨rfl, ?_⟩
  intro s ys ms ds y m d hne hsplit hy hm hd hv
  unfold generateWeekName parseISODate
  rw [if_neg hne, hsplit]
  dsimp only
  rw [hy, hm, hd]
  dsimp only
  rw [addDaysNorm_four ⟨y, m, d⟩ hv]

/-- C7 witness: the start date 2024-06-03 yields the week label from
03/06/2024 to 07/06/2024, and the empty input yields no name. -/
theorem c7_witness :
    generateWeekName "" = none
    ∧ generateWeekName "2024-06-03"
      = some ("Semana " ++ formatDate ⟨2024, 6, 3⟩ ++ " - "
          ++ formatDate (nextDay (nextDay (nextDay (nextDay ⟨2024, 6, 3⟩))))) := by
  refine ⟨c7_generateWeekName.1, ?_⟩
  exact c7_generateWeekName.2 "2024-06-03"
    ['2', '0', '2', '4'] ['0', '6'] ['0', '3'] 2024 6 3
    (by decide) (by decide) (by decide) (by decide) (by decide) (by decide)

/-! ## The empty-target rejection of the add-trip handler -/

/-- C8: whenever the computed target name set of an add-trip request is
empty, the handler rejects the request before creating or touching any
trip — no new document is produced, so no state mutation and no save
occur. -/
theorem c8_empty_target_rejected (genId : String → String)
    (cmp : String → String → Bool) (data : AppData) (dateStr : String)
    (types : List TripType) (selected : List String) (input : String)
    (hempty : computeTargetNames cmp selected input = []) :
    handleAddTrip genId cmp data dateStr types selected input = none := by
  unfold handleAddTrip
  by_cases h1 : dateStr = ""
  · rw [if_pos h1]
  · rw [if_neg h1]
    by_cases h2 : types = []
    · rw [if_pos h2]
    · rw [if_neg h2]
      cases hp : parseISODate dateStr with
      | none => rfl
      | some dt =>
          dsimp only
          rw [hempty]
          rfl

/-- C8 witness: a valid date and direction with no selected names and a
whitespace-only typed input is rejected. -/
theorem c8_witness :
    handleAddTrip (fun n => n) strLe
      ⟨[], "Semana Atual", []⟩ "2024-06-03" [TripType.Ida] [] " \n  \n" = none :=
  c8_empty_target_rejected (fun n => n) strLe ⟨[], "Semana Atual", []⟩
    "2024-06-03" [TripType.Ida] [] " \n  \n" (by decide)

end CaronasApp
